import Mathlib

/-!
Verification development for the ESP32 scale firmware
(`firmware-esp32/src/main.cpp`).

Shallow embedding conventions:
* `float` values (grams, calibration factor) are modelled as exact
  rationals `ℚ`; every claim under scrutiny concerns control flow,
  sign tests and zero tests, which are exact in this model.
* `long` raw HX711 samples are modelled as `ℤ` (24-bit signed values;
  the 20-sample calibration sum stays far below any machine bound,
  so no wrap-around modelling is needed).
* C++ integer division of `long` truncates toward zero; it is embedded
  as `Int.tdiv`.
* `millis()` is modelled as an unbounded monotone `ℕ` counter; the
  `uint32_t` subtraction `now - lastStableRefMs` agrees with truncated
  `ℕ` subtraction because the reference is always a previously observed
  time.
* `readRaw()` is modelled by an oracle `raws : ℕ → ℤ` giving the
  successive samples a handler would read; handlers additionally return
  how many samples they consumed.
* Host replies on `Serial1` and NVS writes are modelled as an event
  list; USB debug prints are not modelled (no claim mentions them).
-/

/-- Calibration state shared between the command layer and the reporting
pipeline: `g_calFactor` (default `1.0`) and `g_tareOffset` (default `0`). -/
structure CalState where
  calFactor : ℚ
  tareOffset : ℤ
  deriving DecidableEq

/-- Power-on state: factor `1.0`, tare offset `0` (also the NVS defaults
read back by `setup()` on a fresh device). -/
def initCal : CalState := ⟨1, 0⟩

/-- Replies emitted on `Serial1` to the host. Each constructor stands for
the corresponding literal text of the firmware. -/
inductive Reply where
  | ackT
  | ackC (q : ℚ)
  | errCalWeight
  | errCalZero
  | errUnknown
  | errCmdLen
  deriving DecidableEq

/-- Observable effects of a command handler: a host reply, or a
write-through to the NVS store (`prefs.putFloat` / `prefs.putInt`). -/
inductive Event where
  | reply (r : Reply)
  | putFloat (q : ℚ)
  | putInt (z : ℤ)
  deriving DecidableEq

/-- C `isspace` over the ASCII range, as used by Arduino
`String::trim`: space and the control characters 9..13. -/
def isSpaceCh (c : Char) : Bool :=
  c = ' ' || (9 ≤ c.toNat && c.toNat ≤ 13)

/-- Arduino `String::trim`: drop leading and trailing `isspace`
characters. -/
def wtrim (l : List Char) : List Char :=
  ((l.dropWhile isSpaceCh).reverse.dropWhile isSpaceCh).reverse

/-- Value of a digit string read left to right. -/
def digitsVal (l : List Char) : ℕ :=
  l.foldl (fun a c => 10 * a + (c.toNat - 48)) 0

/-- Modelled from the spec: Arduino `String::toFloat` (C `atof`) decimal
parsing of the already-trimmed payload - optional sign, integer digits,
optional fractional digits; the exponent form is not modelled (no claim
depends on it). When no digit is present the parse yields `0`, exactly as
`atof` returns `0.0` on no conversion. -/
def atofQ (l : List Char) : ℚ :=
  let c0 := l.headD ' '
  let sgn : ℚ := if c0 = '-' then -1 else 1
  let rest : List Char := if c0 = '-' ∨ c0 = '+' then l.tail else l
  let ip := rest.takeWhile Char.isDigit
  let rest2 := rest.dropWhile Char.isDigit
  let fp : List Char := if rest2.headD ' ' = '.' then rest2.tail.takeWhile Char.isDigit else []
  if ip = [] ∧ fp = [] then 0
  else sgn * ((digitsVal ip : ℚ) + (digitsVal fp : ℚ) / (10 : ℚ) ^ fp.length)

/-- Modelled from the spec: whether the payload parses as a decimal
number, i.e. whether `atof` performs a conversion at all - after the
optional sign there is at least one digit in the integer part or in
the fractional part. Payloads such as `--5`, `x5`, `abc` or `.` fail
this and make the parse yield `0`. The scan mirrors `atofQ` exactly. -/
def parsesAsDecimal (l : List Char) : Bool :=
  let c0 := l.headD ' '
  let rest : List Char := if c0 = '-' ∨ c0 = '+' then l.tail else l
  let ip := rest.takeWhile Char.isDigit
  let rest2 := rest.dropWhile Char.isDigit
  let fp : List Char := if rest2.headD ' ' = '.' then rest2.tail.takeWhile Char.isDigit else []
  !(ip.isEmpty && fp.isEmpty)

/-- Sum of the 20-sample calibration burst read from the oracle
(`for i in 0..19, acc += readRaw(); delay(5)`). -/
def burstSum (raws : ℕ → ℤ) : ℤ :=
  ((List.range 20).map raws).sum

/-- `handleCommand` from `main.cpp`: dispatch of a completed, trimmed,
command line. Returns the new calibration state, the events (replies and
NVS writes, in program order) and the number of raw samples read. -/
def handleCommand (line : List Char) (st : CalState) (raws : ℕ → ℤ) :
    CalState × List Event × ℕ :=
  if line = [] then (st, [], 0)
  else if line = ['T'] ∨ line = ['t'] then
    let r := raws 0
    (⟨st.calFactor, r⟩, [Event.putInt r, Event.reply Reply.ackT], 1)
  else if line.take 2 = ['C', ':'] ∨ line.take 2 = ['c', ':'] then
    let peso := atofQ (wtrim (line.drop 2))
    if peso ≤ 0 then (st, [Event.reply Reply.errCalWeight], 0)
    else
      let rMean := (burstSum raws).tdiv 20
      let rNet := rMean - st.tareOffset
      if rNet = 0 then (st, [Event.reply Reply.errCalZero], 20)
      else
        let f := peso / (rNet : ℚ)
        (⟨f, st.tareOffset⟩,
         [Event.putFloat f, Event.reply (Reply.ackC f)], 20)
  else (st, [Event.reply Reply.errUnknown], 0)

/-- `rawToGrams` from `main.cpp`:
`raw_net = raw - g_tareOffset; return (float)raw_net * g_calFactor`. -/
def rawToGrams (st : CalState) (raw : ℤ) : ℚ :=
  ((raw - st.tareOffset : ℤ) : ℚ) * st.calFactor

/-- A whole session of commands, each line arriving with its own sample
oracle; the calibration state is threaded through `handleCommand`. -/
def runCommands (st : CalState) : List (List Char × (ℕ → ℤ)) → CalState
  | [] => st
  | (l, raws) :: rest => runCommands (handleCommand l st raws).1 rest

/-- The `RingBuffer` median history of `main.cpp`: `N` slots allocated
and zero-initialised by the constructor, a circular write index and a
fill count. -/
structure RingBuffer where
  N : ℕ
  buf : List ℤ
  idx : ℕ
  count : ℕ
  deriving DecidableEq

/-- `RingBuffer rb(n)`: `n` zeroed slots, `idx = 0`, `count = 0`. -/
def RingBuffer.mkInit (n : ℕ) : RingBuffer :=
  ⟨n, List.replicate n 0, 0, 0⟩

/-- `RingBuffer::add`: overwrite the slot at `idx`, advance `idx`
circularly, saturate `count` at `N`. -/
def RingBuffer.add (rb : RingBuffer) (v : ℤ) : RingBuffer :=
  ⟨rb.N, rb.buf.set rb.idx v, (rb.idx + 1) % rb.N,
   if rb.count < rb.N then rb.count + 1 else rb.count⟩

/-- `RingBuffer::median`: `0` when empty, otherwise sort a copy of the
occupied slots and take the element at index `count / 2`. -/
def RingBuffer.median (rb : RingBuffer) : ℤ :=
  if rb.count = 0 then 0
  else (List.insertionSort (· ≤ ·) (rb.buf.take rb.count)).getD (rb.count / 2) 0

/-- Feed a whole sample sequence into the ring buffer, oldest first. -/
def addAll (rb : RingBuffer) (xs : List ℤ) : RingBuffer :=
  xs.foldl RingBuffer.add rb

/-- The most recent `n` entries of `xs` (all of `xs` when it is
shorter), in insertion order. -/
def lastWindow (n : ℕ) (xs : List ℤ) : List ℤ :=
  xs.drop (xs.length - n)

/-- Explicit layout of the ring-buffer slots after the sequence `xs` has
been inserted into a fresh buffer of capacity `n`: while filling, the
samples in order followed by the untouched zero slots; once full, the
last `n` samples rotated so that sample `i` sits in slot `i % n`. -/
def bufSpec (n : ℕ) (xs : List ℤ) : List ℤ :=
  if xs.length < n then xs ++ List.replicate (n - xs.length) 0
  else (lastWindow n xs).drop (n - xs.length % n)
       ++ (lastWindow n xs).take (n - xs.length % n)

/-- Modelled from the spec: the lower-middle element of the sorted
window, i.e. the smaller of the two central elements when the window
size is even (index `(count - 1) / 2`). Used to compare the claim's
wording against `RingBuffer.median`. -/
def lowerMiddle (n : ℕ) (xs : List ℤ) : ℤ :=
  (List.insertionSort (· ≤ ·) (lastWindow n xs)).getD ((min xs.length n - 1) / 2) 0

/-- `IIR_ALPHA = 0.20f`. -/
def IIR_ALPHA : ℚ := 1 / 5

/-- The static locals of `loop()` driving the filter pipeline: the
median history, the IIR seeding flag and the IIR accumulator. -/
structure PipeState where
  rb : RingBuffer
  first : Bool
  iir : ℚ

/-- `loop()` statics at boot: `rb(MEDIAN_WINDOW = 15)`, `first = true`,
`iir_value = 0.0f`. -/
def initPipe : PipeState :=
  ⟨RingBuffer.mkInit 15, true, 0⟩

/-- Steps 1 and 2 of `loop()`: feed the raw sample to the median
history; with at least 3 samples convert the median and smooth it
(seeding exactly on the first such cycle), otherwise convert the
instantaneous raw sample. Returns the new statics and the `grams`
value of this cycle. -/
def pipeCycle (cal : CalState) (p : PipeState) (raw : ℤ) : PipeState × ℚ :=
  let rb := p.rb.add raw
  if 3 ≤ rb.count then
    let g := rawToGrams cal rb.median
    if p.first then (⟨rb, false, g⟩, g)
    else
      let v := (1 - IIR_ALPHA) * p.iir + IIR_ALPHA * g
      (⟨rb, false, v⟩, v)
  else (⟨rb, p.first, p.iir⟩, rawToGrams cal raw)

/-- The `grams` values reported by successive `loop()` cycles on a raw
sample sequence (the calibration state held fixed over the run). -/
def pipeRun (cal : CalState) (p : PipeState) : List ℤ → List ℚ
  | [] => []
  | raw :: rest =>
    (pipeCycle cal p raw).2 :: pipeRun cal (pipeCycle cal p raw).1 rest

/-- Steady-state form of the pipeline once the seeding flag is spent:
every cycle blends the previous accumulator with the median in grams. -/
def blendRun (cal : CalState) (rb : RingBuffer) (v : ℚ) : List ℤ → List ℚ
  | [] => []
  | raw :: rest =>
    ((1 - IIR_ALPHA) * v + IIR_ALPHA * rawToGrams cal (rb.add raw).median)
      :: blendRun cal (rb.add raw)
           ((1 - IIR_ALPHA) * v + IIR_ALPHA * rawToGrams cal (rb.add raw).median) rest

/-- `CMD_MAX_LEN = 80`. -/
def CMD_MAX_LEN : ℕ := 80

/-- Line terminators recognised by step 5 of `loop()`. -/
def isTermCh (c : Char) : Bool :=
  c = '\r' || c = '\n'

/-- The command-line assembly statics: the accumulating `cmdLine` and
the `cmdOverflow` flag. -/
structure LineState where
  cmdLine : List Char
  cmdOverflow : Bool
  deriving DecidableEq

/-- Boot state of the command-line assembler: empty line, no overflow. -/
def initLine : LineState := ⟨[], false⟩

/-- Host-visible outcome of feeding one byte to the assembler: a direct
reply (the length error), or a completed trimmed line handed to
`handleCommand` by the loop. -/
inductive LoopOut where
  | reply (r : Reply)
  | dispatchLine (l : List Char)
  deriving DecidableEq

/-- One byte of step 5 of `loop()`: on a terminator either report the
length error (overflow flagged), dispatch the trimmed non-empty line, or
silently drop the empty line, resetting the statics in all three cases;
on an ordinary byte append while under `CMD_MAX_LEN`, else flag
overflow and discard. -/
def procChar (st : LineState) (c : Char) : LineState × List LoopOut :=
  if isTermCh c then
    if st.cmdOverflow then (initLine, [LoopOut.reply Reply.errCmdLen])
    else if 0 < (wtrim st.cmdLine).length then
      (initLine, [LoopOut.dispatchLine (wtrim st.cmdLine)])
    else (initLine, [])
  else if st.cmdOverflow then (st, [])
  else if st.cmdLine.length < CMD_MAX_LEN then (⟨st.cmdLine ++ [c], st.cmdOverflow⟩, [])
  else (⟨st.cmdLine, true⟩, [])

/-- Drain a whole inbound byte sequence through the assembler,
collecting the outputs in order. -/
def procChars (st : LineState) : List Char → LineState × List LoopOut
  | [] => (st, [])
  | c :: cs =>
    ((procChars (procChar st c).1 cs).1,
     (procChar st c).2 ++ (procChars (procChar st c).1 cs).2)

/-- `STABLE_DELTA_G = 1.0f` (grams). -/
def STABLE_DELTA_G : ℚ := 1

/-- `STABLE_MS = 700` (milliseconds). -/
def STABLE_MS : ℕ := 700

/-- The stability statics of `loop()`: `last_grams`, `lastStableRefMs`
and `stable`. -/
structure StabState where
  lastGrams : ℚ
  lastStableRefMs : ℕ
  stable : Bool
  deriving DecidableEq

/-- Stability statics at boot: `last_grams = 0.0f`,
`lastStableRefMs = 0`, `stable = false`. -/
def initStab : StabState := ⟨0, 0, false⟩

/-- Step 3 of `loop()`: compare this cycle's grams with the previous
cycle's (`last_grams`), set `stable` once the timer has run for
`STABLE_MS`, clear it and restart the timer on a larger step;
`last_grams` is reassigned to the current value every cycle. `millis()`
is an unbounded monotone counter here, so `ℕ` truncated subtraction
agrees with the `uint32_t` subtraction of the source. -/
def stabStep (s : StabState) (grams : ℚ) (now : ℕ) : StabState :=
  if |grams - s.lastGrams| ≤ STABLE_DELTA_G then
    if STABLE_MS ≤ now - s.lastStableRefMs then ⟨grams, s.lastStableRefMs, true⟩
    else ⟨grams, s.lastStableRefMs, s.stable⟩
  else ⟨grams, now, false⟩

/-- Run the stability statics over the `(grams, millis)` pairs of
successive cycles. -/
def stabRun (s : StabState) : List (ℚ × ℕ) → StabState
  | [] => s
  | (g, t) :: rest => stabRun (stabStep s g t) rest

/-- Modelled from the spec: the state of the two-state stability
machine of section 4.4 - a fixed reference point, the time it was last
set, and the stable flag. -/
structure RefStab where
  refPoint : ℚ
  refTime : ℕ
  isStable : Bool
  deriving DecidableEq

/-- Modelled from the spec: initial state Unstable, reference point 0,
timer started at process start. -/
def initRefStab : RefStab := ⟨0, 0, false⟩

/-- Modelled from the spec: the detector becomes stable only when the
current weight has stayed within the delta band of the fixed reference
point for at least `STABLE_MS` since the reference point was last set;
the instant the weight leaves the band the reference point is
reassigned to the current value, the timer restarts and the stable flag
is cleared. -/
def refStabStep (s : RefStab) (grams : ℚ) (now : ℕ) : RefStab :=
  if |grams - s.refPoint| ≤ STABLE_DELTA_G then
    ⟨s.refPoint, s.refTime, s.isStable || decide (STABLE_MS ≤ now - s.refTime)⟩
  else ⟨grams, now, false⟩

/-- Run the spec's reference-point machine over the same cycle inputs. -/
def refStabRun (s : RefStab) : List (ℚ × ℕ) → RefStab
  | [] => s
  | (g, t) :: rest => refStabRun (refStabStep s g t) rest

/-- The sample oracle of the degenerate-mean scenario: one burst whose
samples sum to 19, so the truncated 20-sample mean is 0 while the exact
mean is 19/20. -/
def burst19 : ℕ → ℤ :=
  fun i => if i = 0 then 19 else 0

/-- Characterisation of `handleCommand` on a calibrate-shaped line:
payload check, burst, zero guard, factor assignment and persistence,
exactly as the `startsWith` branch of the source. -/
lemma handleCommand_cal (u : Char) (p : List Char) (st : CalState) (raws : ℕ → ℤ)
    (hu : u = 'C' ∨ u = 'c') :
    handleCommand (u :: ':' :: p) st raws =
      if atofQ (wtrim p) ≤ 0 then (st, [Event.reply Reply.errCalWeight], 0)
      else if (burstSum raws).tdiv 20 - st.tareOffset = 0 then
        (st, [Event.reply Reply.errCalZero], 20)
      else
        (⟨atofQ (wtrim p) / (((burstSum raws).tdiv 20 - st.tareOffset : ℤ) : ℚ), st.tareOffset⟩,
         [Event.putFloat (atofQ (wtrim p) / (((burstSum raws).tdiv 20 - st.tareOffset : ℤ) : ℚ)),
          Event.reply (Reply.ackC (atofQ (wtrim p) / (((burstSum raws).tdiv 20 - st.tareOffset : ℤ) : ℚ)))],
         20) := by
  rcases hu with hu | hu <;> subst hu <;> simp +decide [handleCommand]

/-- A payload that does not parse as a decimal number (no conversion
performed) parses to `0`, as `atof` does. -/
lemma atofQ_zero_of_not_parses (l : List Char) (h : parsesAsDecimal l = false) :
    atofQ l = 0 := by
  simp only [parsesAsDecimal, Bool.not_eq_false', Bool.and_eq_true,
    List.isEmpty_iff] at h
  simp only [atofQ]
  rw [if_pos h]

/-- The reference payload of the scenarios: `"500"` parses to `500`. -/
lemma atofQ_500 : atofQ (wtrim ['5', '0', '0']) = 500 := by
  simp +decide [atofQ, wtrim, digitsVal]

/-- Claim C7: with tare offset `t` and calibration factor `f > 0`, the
conversion is the affine map `toGrams(raw) = (raw - t) * f`, and the
tare point itself converts to exactly `0` grams. -/
theorem rawToGrams_affine (t : ℤ) (f : ℚ) (raw : ℤ) (hf : 0 < f) :
    rawToGrams ⟨f, t⟩ raw = ((raw - t : ℤ) : ℚ) * f ∧ rawToGrams ⟨f, t⟩ t = 0 := by
  refine ⟨rfl, ?_⟩
  simp [rawToGrams]

/-- Witness for `rawToGrams_affine` at `t = 3`, `f = 2`, `raw = 5`. -/
theorem rawToGrams_affine_witness :
    0 < (2 : ℚ) ∧
      (rawToGrams ⟨2, 3⟩ 5 = (((5 : ℤ) - 3 : ℤ) : ℚ) * 2 ∧ rawToGrams ⟨2, 3⟩ 3 = 0) :=
  ⟨by norm_num, rawToGrams_affine 3 2 5 (by norm_num)⟩

/-- Claim C10: a calibrate-shaped line (upper or lower case) whose
trimmed payload does not parse as a decimal number parses to `0`, so
it is rejected with `ERR:CAL:weight` - not `ERR:UNKNOWN_CMD` - with no
sampling burst (zero raw reads) and the calibration state unchanged. -/
theorem cal_nonnumeric_rejected (u : Char) (p : List Char) (st : CalState) (raws : ℕ → ℤ)
    (hu : u = 'C' ∨ u = 'c') (hp : parsesAsDecimal (wtrim p) = false) :
    atofQ (wtrim p) = 0 ∧
      handleCommand (u :: ':' :: p) st raws = (st, [Event.reply Reply.errCalWeight], 0) := by
  have h0 : atofQ (wtrim p) = 0 := atofQ_zero_of_not_parses _ hp
  exact ⟨h0, by rw [handleCommand_cal u p st raws hu, if_pos (le_of_eq h0)]⟩

/-- Witness for `cal_nonnumeric_rejected` on the lines `C:--5` and
`c:x5`: both payloads contain a digit yet do not parse as a decimal
number, and both are rejected with the weight error. -/
theorem cal_nonnumeric_rejected_witness :
    parsesAsDecimal (wtrim ['-', '-', '5']) = false ∧
    (atofQ (wtrim ['-', '-', '5']) = 0 ∧
      handleCommand ['C', ':', '-', '-', '5'] initCal (fun _ => 5)
        = (initCal, [Event.reply Reply.errCalWeight], 0)) ∧
    parsesAsDecimal (wtrim ['x', '5']) = false ∧
    (atofQ (wtrim ['x', '5']) = 0 ∧
      handleCommand ['c', ':', 'x', '5'] initCal (fun _ => 5)
        = (initCal, [Event.reply Reply.errCalWeight], 0)) :=
  ⟨by decide,
   cal_nonnumeric_rejected 'C' ['-', '-', '5'] initCal (fun _ => 5) (Or.inl rfl) (by decide),
   by decide,
   cal_nonnumeric_rejected 'c' ['x', '5'] initCal (fun _ => 5) (Or.inr rfl) (by decide)⟩

/-- Claim C4: a calibrate command with parsed payload at most `0`
replies `ERR:CAL:weight`; with a positive payload and a burst whose
truncated mean equals the tare offset it replies `ERR:CAL:zero`; in
both failure cases the state is unchanged and no persistence event is
emitted. -/
theorem cal_failure_paths (u : Char) (p : List Char) (st : CalState) (raws : ℕ → ℤ)
    (hu : u = 'C' ∨ u = 'c') :
    (atofQ (wtrim p) ≤ 0 →
      handleCommand (u :: ':' :: p) st raws = (st, [Event.reply Reply.errCalWeight], 0)) ∧
    (0 < atofQ (wtrim p) → (burstSum raws).tdiv 20 - st.tareOffset = 0 →
      handleCommand (u :: ':' :: p) st raws = (st, [Event.reply Reply.errCalZero], 20)) := by
  constructor
  · intro h
    rw [handleCommand_cal u p st raws hu, if_pos h]
  · intro h hz
    rw [handleCommand_cal u p st raws hu, if_neg (not_le.mpr h), if_pos hz]

/-- Witness for `cal_failure_paths`: the line `C:-5` is rejected with
`ERR:CAL:weight` and leaves the default state untouched. -/
theorem cal_failure_paths_witness :
    atofQ (wtrim ['-', '5']) ≤ 0 ∧
      handleCommand ['C', ':', '-', '5'] initCal (fun _ => 1000)
        = (initCal, [Event.reply Reply.errCalWeight], 0) := by
  have h : atofQ (wtrim ['-', '5']) ≤ 0 := by
    simp +decide [atofQ, wtrim, digitsVal]
  exact ⟨h, (cal_failure_paths 'C' ['-', '5'] initCal (fun _ => 1000) (Or.inl rfl)).1 h⟩

/-- Claim C9: the calibration burst's mean is the truncating integer
division of the 20-sample sum by 20; whenever that truncated mean equals
the tare offset the command fails with `ERR:CAL:zero` (even though the
exact real mean may differ from the tare offset), and otherwise the
nonzero truncated net mean is the divisor of the new factor. -/
theorem cal_truncated_mean (u : Char) (p : List Char) (st : CalState) (raws : ℕ → ℤ)
    (hu : u = 'C' ∨ u = 'c') (hpos : 0 < atofQ (wtrim p)) :
    ((burstSum raws).tdiv 20 - st.tareOffset = 0 →
      handleCommand (u :: ':' :: p) st raws = (st, [Event.reply Reply.errCalZero], 20)) ∧
    ((burstSum raws).tdiv 20 - st.tareOffset ≠ 0 →
      handleCommand (u :: ':' :: p) st raws =
        (⟨atofQ (wtrim p) / (((burstSum raws).tdiv 20 - st.tareOffset : ℤ) : ℚ), st.tareOffset⟩,
         [Event.putFloat (atofQ (wtrim p) / (((burstSum raws).tdiv 20 - st.tareOffset : ℤ) : ℚ)),
          Event.reply (Reply.ackC
            (atofQ (wtrim p) / (((burstSum raws).tdiv 20 - st.tareOffset : ℤ) : ℚ)))],
         20)) := by
  constructor
  · intro hz
    rw [handleCommand_cal u p st raws hu, if_neg (not_le.mpr hpos), if_pos hz]
  · intro hnz
    rw [handleCommand_cal u p st raws hu, if_neg (not_le.mpr hpos), if_neg hnz]

/-- Witness for `cal_truncated_mean`: a burst summing to 19 has exact
mean 19/20 but truncated mean 0, so `C:500` fails with `ERR:CAL:zero`
even though the exact mean differs from the tare offset 0. -/
theorem cal_truncated_mean_witness :
    handleCommand ['C', ':', '5', '0', '0'] initCal burst19
        = (initCal, [Event.reply Reply.errCalZero], 20)
      ∧ burstSum burst19 = 19 ∧ (19 : ℚ) / 20 ≠ 0 := by
  have hpos : 0 < atofQ (wtrim ['5', '0', '0']) := by rw [atofQ_500]; norm_num
  refine ⟨(cal_truncated_mean 'C' ['5', '0', '0'] initCal burst19 (Or.inl rfl) hpos).1
    (by decide), by decide, by norm_num⟩

/-- Dispatching any single command never makes the calibration factor
exactly zero: either the state is unchanged, or a successful calibrate
sets it to a quotient of a positive weight by a nonzero net mean. -/
lemma handleCommand_calFactor_ne_zero (l : List Char) (st : CalState) (raws : ℕ → ℤ)
    (h : st.calFactor ≠ 0) : (handleCommand l st raws).1.calFactor ≠ 0 := by
  simp only [handleCommand]
  split_ifs with h1 h2 h3 h4 h5
  · exact h
  · exact h
  · exact h
  · exact h
  · exact div_ne_zero (ne_of_gt (not_le.mp h4)) (Int.cast_ne_zero.mpr h5)
  · exact h

/-- Claim C2 amended: under every command sequence the calibration
factor stays nonzero - it defaults to `1.0` and a successful calibrate
sets it to `weight / netRaw` with `weight > 0` and `netRaw ≠ 0`; its
sign, however, follows the sign of `netRaw` (see
`calibrate_negative_factor`), so "strictly greater than 0" fails. -/
theorem calFactor_never_zero (cmds : List (List Char × (ℕ → ℤ))) :
    (runCommands initCal cmds).calFactor ≠ 0 := by
  have main : ∀ (cs : List (List Char × (ℕ → ℤ))) (st : CalState),
      st.calFactor ≠ 0 → (runCommands st cs).calFactor ≠ 0 := by
    intro cs
    induction cs with
    | nil => intro st h; exact h
    | cons c rest ih =>
      intro st h
      obtain ⟨l, raws⟩ := c
      exact ih _ (handleCommand_calFactor_ne_zero l st raws h)
  exact main cmds initCal (by norm_num [initCal])

/-- Witness for `calFactor_never_zero` on a one-command session. -/
theorem calFactor_never_zero_witness :
    (runCommands initCal [(['T'], fun _ => 7)]).calFactor ≠ 0 :=
  calFactor_never_zero [(['T'], fun _ => 7)]

/-- Claim C2 counterexample: with all burst samples at `-100` below the
tare point, the command `C:500` succeeds - it persists the factor and
replies `ACK:C` - yet the new calibration factor is `-5`, which is not
strictly greater than `0`. -/
theorem calibrate_negative_factor :
    handleCommand ['C', ':', '5', '0', '0'] initCal (fun _ => -100)
        = (⟨-5, 0⟩, [Event.putFloat (-5), Event.reply (Reply.ackC (-5))], 20)
      ∧ ¬(0 < (handleCommand ['C', ':', '5', '0', '0'] initCal (fun _ => -100)).1.calFactor) := by
  have hchar := handleCommand_cal 'C' ['5', '0', '0'] initCal (fun _ => -100) (Or.inl rfl)
  rw [atofQ_500] at hchar
  have hb : (burstSum (fun _ => (-100 : ℤ))).tdiv 20 - initCal.tareOffset = -100 := by decide
  rw [hb] at hchar
  rw [if_neg (by norm_num), if_neg (by norm_num)] at hchar
  have hval : (500 : ℚ) / (((-100 : ℤ) : ℚ)) = -5 := by norm_num
  rw [hval] at hchar
  rw [hchar]
  norm_num [initCal]

/-- Claim C8: a completed line is trimmed before dispatch; a line that
is empty after trimming is silently dropped (no output, statics reset);
and a non-empty trimmed line matching neither the tare shape (`T`/`t`)
nor the calibrate shape (`C:`/`c:`) yields exactly `ERR:UNKNOWN_CMD`
with the calibration state untouched and no raw sample read. -/
theorem trim_dispatch_unknown (s l : List Char) (st : CalState) (raws : ℕ → ℤ) (d : Char)
    (hd : isTermCh d = true) :
    (wtrim s = [] → procChar ⟨s, false⟩ d = (initLine, [])) ∧
    (wtrim s ≠ [] → procChar ⟨s, false⟩ d = (initLine, [LoopOut.dispatchLine (wtrim s)])) ∧
    (l ≠ [] → l ≠ ['T'] → l ≠ ['t'] → l.take 2 ≠ ['C', ':'] → l.take 2 ≠ ['c', ':'] →
      handleCommand l st raws = (st, [Event.reply Reply.errUnknown], 0)) := by
  refine ⟨?_, ?_, ?_⟩
  · intro h
    simp [procChar, hd, h]
  · intro h
    simp [procChar, hd, List.length_pos, h]
  · intro h1 h2 h3 h4 h5
    simp only [handleCommand]
    rw [if_neg h1, if_neg (not_or.mpr ⟨h2, h3⟩), if_neg (not_or.mpr ⟨h4, h5⟩)]

/-- Witness for `trim_dispatch_unknown`: blank line dropped, ` X ` is
trimmed to `X` before dispatch, and `X` draws `ERR:UNKNOWN_CMD`. -/
theorem trim_dispatch_unknown_witness :
    procChar ⟨[' ', ' '], false⟩ '\n' = (initLine, []) ∧
    procChar ⟨[' ', 'X', ' '], false⟩ '\n'
        = (initLine, [LoopOut.dispatchLine (wtrim [' ', 'X', ' '])]) ∧
    wtrim [' ', 'X', ' '] = ['X'] ∧
    handleCommand ['X'] initCal (fun _ => 0) = (initCal, [Event.reply Reply.errUnknown], 0) :=
  ⟨(trim_dispatch_unknown [' ', ' '] ['X'] initCal (fun _ => 0) '\n' rfl).1 (by decide),
   (trim_dispatch_unknown [' ', 'X', ' '] ['X'] initCal (fun _ => 0) '\n' rfl).2.1 (by decide),
   by decide,
   (trim_dispatch_unknown [' ', 'X', ' '] ['X'] initCal (fun _ => 0) '\n' rfl).2.2
     (by decide) (by decide) (by decide) (by decide) (by decide)⟩

/-- Composing the byte-stream drain over concatenation. -/
lemma procChars_append (st : LineState) (xs ys : List Char) :
    procChars st (xs ++ ys) =
      ((procChars (procChars st xs).1 ys).1,
       (procChars st xs).2 ++ (procChars (procChars st xs).1 ys).2) := by
  induction xs generalizing st with
  | nil => simp [procChars]
  | cons c cs ih => simp [procChars, ih, List.append_assoc]

/-- Once the overflow flag is set, non-terminator bytes are discarded
without any state change or output. -/
lemma procChars_absorb (st : LineState) (cs : List Char) (hov : st.cmdOverflow = true) :
    (∀ c ∈ cs, isTermCh c = false) → procChars st cs = (st, []) := by
  induction cs with
  | nil => intro _; rfl
  | cons c cs ih =>
    intro hcs
    have h1 : procChar st c = (st, []) := by
      simp [procChar, hcs c (by simp), hov]
    simp [procChars, h1, ih (fun x hx => hcs x (by simp [hx]))]

/-- Feeding non-terminator bytes from a clean overflow flag buffers the
first `CMD_MAX_LEN` characters and discards the rest, flagging overflow
exactly when the line exceeds the bound. -/
lemma procChars_accumulate (cs : List Char) : ∀ acc : List Char,
    (∀ c ∈ cs, isTermCh c = false) → acc.length ≤ CMD_MAX_LEN →
    procChars ⟨acc, false⟩ cs
      = (⟨(acc ++ cs).take CMD_MAX_LEN, decide (CMD_MAX_LEN < acc.length + cs.length)⟩, []) := by
  induction cs with
  | nil =>
    intro acc _ hacc
    simp only [procChars, List.append_nil, List.length_nil, Nat.add_zero]
    rw [List.take_of_length_le hacc, decide_eq_false (not_lt.mpr hacc)]
  | cons c cs ih =>
    intro acc hcs hacc
    have hc := hcs c (by simp)
    rcases Nat.lt_or_ge acc.length CMD_MAX_LEN with hlt | hge
    · have h1 : procChar ⟨acc, false⟩ c = (⟨acc ++ [c], false⟩, []) := by
        simp [procChar, hc, hlt]
      have h2 := ih (acc ++ [c]) (fun x hx => hcs x (by simp [hx]))
        (by simp; omega)
      have harg : ((acc ++ [c]) ++ cs) = acc ++ c :: cs := by simp
      have hlen : ((acc ++ [c]).length + cs.length) = acc.length + (c :: cs).length := by
        simp
        omega
      rw [harg, hlen] at h2
      simp only [procChars, h1, h2, List.nil_append]
    · have h1 : procChar ⟨acc, false⟩ c = (⟨acc, true⟩, []) := by
        simp [procChar, hc, not_lt.mpr hge]
      have hacc_eq : acc.length = CMD_MAX_LEN := le_antisymm hacc hge
      have h2 := procChars_absorb ⟨acc, true⟩ cs rfl (fun x hx => hcs x (by simp [hx]))
      have htake : (acc ++ c :: cs).take CMD_MAX_LEN = acc := List.take_left' hacc_eq
      have hdec : decide (CMD_MAX_LEN < acc.length + (c :: cs).length) = true :=
        decide_eq_true (by simp [List.length_cons]; omega)
      simp only [procChars, h1, h2, htake, hdec, List.nil_append]

/-- Claim C5: once a line reaches `CMD_MAX_LEN` (80) characters, every
further non-terminator byte is discarded rather than buffered (the
accumulator holds exactly the first 80 characters, overflow flagged);
at the next terminator the only output is the `ERR:CMDLEN` reply - no
line is dispatched - and the accumulator and flag are reset. -/
theorem overflow_line_rejected (cs : List Char) (d : Char)
    (hcs : ∀ c ∈ cs, isTermCh c = false) (hlen : CMD_MAX_LEN < cs.length)
    (hd : isTermCh d = true) :
    procChars initLine (cs ++ [d]) = (initLine, [LoopOut.reply Reply.errCmdLen]) ∧
    (procChars initLine cs).1 = ⟨cs.take CMD_MAX_LEN, true⟩ := by
  have hacc := procChars_accumulate cs [] hcs (by simp [CMD_MAX_LEN])
  rw [List.nil_append, List.length_nil, Nat.zero_add, decide_eq_true hlen] at hacc
  have hacc' : procChars initLine cs = (⟨cs.take CMD_MAX_LEN, true⟩, []) := hacc
  have hterm : procChars ⟨cs.take CMD_MAX_LEN, true⟩ [d]
      = (initLine, [LoopOut.reply Reply.errCmdLen]) := by
    simp [procChars, procChar, hd]
  constructor
  · rw [procChars_append initLine cs [d], hacc', hterm]
    simp
  · rw [hacc']

/-- Witness for `overflow_line_rejected`: 81 ordinary characters then a
newline draw `ERR:CMDLEN` and reset the assembler. -/
theorem overflow_line_rejected_witness :
    procChars initLine (List.replicate 81 'a' ++ ['\n'])
        = (initLine, [LoopOut.reply Reply.errCmdLen]) ∧
    (procChars initLine (List.replicate 81 'a')).1
        = ⟨(List.replicate 81 'a').take CMD_MAX_LEN, true⟩ :=
  overflow_line_rejected (List.replicate 81 'a') '\n' (by decide) (by decide) (by decide)

/-- Claim C1 counterexample: on the cycle inputs (grams, millis)
`(0,0), (1,700), (2,1400)` - a slow drift whose per-cycle step is
exactly the delta band - the firmware's detector reports stable, while
the spec's fixed-reference machine has cleared its flag because the
final weight is an excursion of 2 grams from the reference point 0; so
the code does not behave as the claimed two-state machine with a fixed
reference point, and `stable` survives an excursion beyond delta from
that reference point. -/
theorem stability_not_fixed_reference :
    (stabRun initStab [((0 : ℚ), 0), (1, 700), (2, 1400)]).stable = true ∧
    (refStabRun initRefStab [((0 : ℚ), 0), (1, 700), (2, 1400)]).isStable = false ∧
    ¬(|(2 : ℚ) - (refStabRun initRefStab [((0 : ℚ), 0), (1, 700)]).refPoint| ≤ STABLE_DELTA_G) := by
  refine ⟨?_, ?_, ?_⟩
  · norm_num [stabRun, stabStep, initStab, STABLE_DELTA_G, STABLE_MS]
  · norm_num [refStabRun, refStabStep, initRefStab, STABLE_DELTA_G, STABLE_MS]
  · norm_num [refStabRun, refStabStep, initRefStab, STABLE_DELTA_G, STABLE_MS]

/-- Claim C1 amended: the firmware's detector compares each cycle's
smoothed weight with the previous cycle's value (`last_grams` is
reassigned to the current value every cycle, not only on excursions):
`stable` is set when the consecutive difference is within delta and at
least `STABLE_MS` has elapsed since the timer reference, it is held
unchanged within delta before that, it is cleared - with the timer
restarted - the instant the consecutive difference exceeds delta, and
it never toggles true to false without such a consecutive-difference
excursion. -/
theorem stability_step_consecutive (s : StabState) (g : ℚ) (now : ℕ) :
    ((stabStep s g now).lastGrams = g) ∧
    (|g - s.lastGrams| ≤ STABLE_DELTA_G → STABLE_MS ≤ now - s.lastStableRefMs →
      stabStep s g now = ⟨g, s.lastStableRefMs, true⟩) ∧
    (|g - s.lastGrams| ≤ STABLE_DELTA_G → now - s.lastStableRefMs < STABLE_MS →
      stabStep s g now = ⟨g, s.lastStableRefMs, s.stable⟩) ∧
    (STABLE_DELTA_G < |g - s.lastGrams| →
      stabStep s g now = ⟨g, now, false⟩) ∧
    (s.stable = true → (stabStep s g now).stable = false →
      STABLE_DELTA_G < |g - s.lastGrams|) := by
  refine ⟨?_, ?_, ?_, ?_, ?_⟩
  · simp only [stabStep]
    split_ifs <;> rfl
  · intro h1 h2
    rw [stabStep, if_pos h1, if_pos h2]
  · intro h1 h2
    rw [stabStep, if_pos h1, if_neg (not_le.mpr h2)]
  · intro h1
    rw [stabStep, if_neg (not_le.mpr h1)]
  · intro hs hcl
    by_contra hno
    rw [not_lt] at hno
    rw [stabStep, if_pos hno] at hcl
    rcases le_or_lt STABLE_MS (now - s.lastStableRefMs) with h | h
    · rw [if_pos h] at hcl
      simp at hcl
    · rw [if_neg (not_le.mpr h)] at hcl
      simp at hcl
      rw [hcl] at hs
      exact Bool.false_ne_true hs

/-- Witness for `stability_step_consecutive`: from a stable state, a
2-gram jump against the previous cycle's 0 clears the flag and restarts
the timer. -/
theorem stability_step_consecutive_witness :
    stabStep ⟨0, 0, true⟩ 2 5 = ⟨2, 5, false⟩ ∧ STABLE_DELTA_G < |(2 : ℚ) - (0 : ℚ)| :=
  ⟨(stability_step_consecutive ⟨0, 0, true⟩ 2 5).2.2.2.1
      (by norm_num [STABLE_DELTA_G]),
   by norm_num [STABLE_DELTA_G]⟩

/-- One circular overwrite in terms of the explicit layout: writing the
next sample at the current index turns the layout for `l` into the
layout for `l ++ [a]`. -/
lemma bufSpec_set (n : ℕ) (hn : 0 < n) (l : List ℤ) (a : ℤ) :
    (bufSpec n l).set (l.length % n) a = bufSpec n (l ++ [a]) := by
  rcases Nat.lt_or_ge l.length n with hk | hk
  · -- buffer still filling: the write lands just past the samples
    have hmod : l.length % n = l.length := Nat.mod_eq_of_lt hk
    have e1 : bufSpec n l = l ++ List.replicate (n - l.length) 0 := by
      unfold bufSpec
      rw [if_pos hk]
    rw [e1, hmod, List.set_append, if_neg (lt_irrefl _), Nat.sub_self]
    have h1 : n - l.length = (n - l.length - 1) + 1 := by omega
    rw [h1, List.replicate_succ, List.set_cons_zero]
    rcases Nat.lt_or_ge (l.length + 1) n with hk1 | hk1
    · have e2 : bufSpec n (l ++ [a]) = (l ++ [a]) ++ List.replicate (n - (l ++ [a]).length) 0 := by
        unfold bufSpec
        rw [if_pos (by simpa using hk1)]
      rw [e2, List.append_assoc, List.singleton_append]
      congr 2
      simp
      omega
    · have hn1 : l.length + 1 = n := by omega
      have e2 : bufSpec n (l ++ [a])
          = (lastWindow n (l ++ [a])).drop (n - (l ++ [a]).length % n)
            ++ (lastWindow n (l ++ [a])).take (n - (l ++ [a]).length % n) := by
        unfold bufSpec
        rw [if_neg (by simp; omega)]
      have hwin : lastWindow n (l ++ [a]) = l ++ [a] := by
        unfold lastWindow
        rw [show (l ++ [a]).length - n = 0 from by simp; omega, List.drop_zero]
      have hmod2 : (l ++ [a]).length % n = 0 := by
        simp [hn1]
      have hlen2 : (l ++ [a]).length = n := by simp; omega
      rw [e2, hwin, hmod2, Nat.sub_zero,
        List.drop_eq_nil_of_le (le_of_eq hlen2), List.take_of_length_le (le_of_eq hlen2),
        List.nil_append]
      rw [show n - l.length - 1 = 0 from by omega, List.replicate_zero]
  · -- buffer full: the write replaces the oldest sample of the window
    have hr : l.length % n < n := Nat.mod_lt _ hn
    have hWlen : (lastWindow n l).length = n := by
      simp [lastWindow]
      omega
    obtain ⟨w0, W', hW0⟩ : ∃ w0 W', lastWindow n l = w0 :: W' := by
      cases h : lastWindow n l with
      | nil => rw [h] at hWlen; simp at hWlen; omega
      | cons w0 W' => exact ⟨w0, W', rfl⟩
    have hW'len : W'.length = n - 1 := by
      rw [hW0] at hWlen
      simp at hWlen
      omega
    have e1 : bufSpec n l
        = (lastWindow n l).drop (n - l.length % n) ++ (lastWindow n l).take (n - l.length % n) := by
      unfold bufSpec
      rw [if_neg (not_lt.mpr hk)]
    have hdroplen : ((lastWindow n l).drop (n - l.length % n)).length = l.length % n := by
      simp [hWlen]
      omega
    rw [e1, List.set_append, if_neg (by rw [hdroplen]; exact lt_irrefl _), hdroplen,
      Nat.sub_self]
    have hm : n - l.length % n = (n - l.length % n - 1) + 1 := by omega
    rw [hm, hW0, List.take_succ_cons, List.drop_succ_cons, List.set_cons_zero]
    -- left side is now  W'.drop m ++ a :: W'.take m  with m = n - r - 1
    have hk1 : ¬((l ++ [a]).length < n) := by simp; omega
    have e2 : bufSpec n (l ++ [a])
        = (lastWindow n (l ++ [a])).drop (n - (l ++ [a]).length % n)
          ++ (lastWindow n (l ++ [a])).take (n - (l ++ [a]).length % n) := by
      unfold bufSpec
      rw [if_neg hk1]
    have hwin : lastWindow n (l ++ [a]) = W' ++ [a] := by
      unfold lastWindow
      rw [show (l ++ [a]).length - n = (l.length - n) + 1 from by simp; omega,
        List.drop_append_of_le_length (by omega)]
      congr 1
      have hdd : l.drop (l.length - n + 1) = List.drop 1 (List.drop (l.length - n) l) :=
        (List.drop_drop 1 (l.length - n) l).symm
      rw [hdd]
      have hW0' : l.drop (l.length - n) = w0 :: W' := hW0
      rw [hW0', List.drop_one]
      rfl
    have hmod2 : (l ++ [a]).length % n = (l.length % n + 1) % n := by
      rw [List.length_append]
      exact (Nat.mod_add_mod l.length n 1).symm
    rcases Nat.lt_or_ge (l.length % n + 1) n with hr1 | hr1
    · have hmod3 : (l ++ [a]).length % n = l.length % n + 1 := by
        rw [hmod2, Nat.mod_eq_of_lt hr1]
      rw [e2, hwin, hmod3]
      have hmle : n - (l.length % n + 1) ≤ W'.length := by omega
      rw [List.drop_append_of_le_length hmle, List.take_append_of_le_length hmle]
      rw [show n - (l.length % n + 1) = n - l.length % n - 1 from by omega]
      rw [List.append_assoc, List.singleton_append]
    · have hr1' : l.length % n + 1 = n := by omega
      have hmod3 : (l ++ [a]).length % n = 0 := by
        rw [hmod2, hr1', Nat.mod_self]
      have hW2len : (W' ++ [a]).length = n := by simp; omega
      rw [e2, hwin, hmod3, Nat.sub_zero,
        List.drop_eq_nil_of_le (le_of_eq hW2len), List.take_of_length_le (le_of_eq hW2len),
        List.nil_append]
      rw [show n - l.length % n - 1 = 0 from by omega, List.drop_zero, List.take_zero]

/-- Layout invariant: after inserting `xs` into a fresh ring buffer of
positive capacity `n`, the slots are `bufSpec n xs`, the write index is
`xs.length % n` and the fill count is `min xs.length n`. -/
lemma addAll_eq (n : ℕ) (hn : 0 < n) (xs : List ℤ) :
    addAll (RingBuffer.mkInit n) xs
      = ⟨n, bufSpec n xs, xs.length % n, min xs.length n⟩ := by
  induction xs using List.reverseRecOn with
  | nil =>
    unfold addAll RingBuffer.mkInit bufSpec
    simp [hn]
  | append_singleton l a ih =>
    have hstep : addAll (RingBuffer.mkInit n) (l ++ [a])
        = (addAll (RingBuffer.mkInit n) l).add a := by
      unfold addAll
      rw [List.foldl_append, List.foldl_cons, List.foldl_nil]
    rw [hstep, ih]
    show RingBuffer.mk n ((bufSpec n l).set (l.length % n) a) ((l.length % n + 1) % n)
          (if min l.length n < n then min l.length n + 1 else min l.length n)
        = ⟨n, bufSpec n (l ++ [a]), (l ++ [a]).length % n, min (l ++ [a]).length n⟩
    rw [RingBuffer.mk.injEq]
    refine ⟨rfl, bufSpec_set n hn l a, ?_, ?_⟩
    · rw [List.length_append, List.length_singleton]
      exact Nat.mod_add_mod l.length n 1
    · rw [List.length_append, List.length_singleton]
      split <;> omega

/-- The occupied slots of the ring buffer are a permutation of the
window of the most recent `min xs.length n` samples. -/
lemma bufSpec_take_perm (n : ℕ) (hn : 0 < n) (xs : List ℤ) :
    ((bufSpec n xs).take (min xs.length n)).Perm (lastWindow n xs) := by
  rcases Nat.lt_or_ge xs.length n with hk | hk
  · have e1 : bufSpec n xs = xs ++ List.replicate (n - xs.length) 0 := by
      unfold bufSpec
      rw [if_pos hk]
    have hmin : min xs.length n = xs.length := by omega
    have hwin : lastWindow n xs = xs := by
      unfold lastWindow
      rw [show xs.length - n = 0 from by omega, List.drop_zero]
    rw [e1, hmin, List.take_left, hwin]
  · have e1 : bufSpec n xs
        = (lastWindow n xs).drop (n - xs.length % n)
          ++ (lastWindow n xs).take (n - xs.length % n) := by
      unfold bufSpec
      rw [if_neg (not_lt.mpr hk)]
    have hWlen : (lastWindow n xs).length = n := by
      simp [lastWindow]
      omega
    have hmin : min xs.length n = n := by omega
    have hlen : ((lastWindow n xs).drop (n - xs.length % n)
        ++ (lastWindow n xs).take (n - xs.length % n)).length = n := by
      simp [hWlen]
    rw [e1, hmin, List.take_of_length_le (le_of_eq hlen)]
    refine List.perm_append_comm.trans ?_
    rw [List.take_append_drop]

/-- Sorting is invariant under permutation of the input. -/
lemma insertionSort_congr_perm {l₁ l₂ : List ℤ} (h : l₁.Perm l₂) :
    List.insertionSort (· ≤ ·) l₁ = List.insertionSort (· ≤ ·) l₂ :=
  List.eq_of_perm_of_sorted
    ((List.perm_insertionSort _ l₁).trans (h.trans (List.perm_insertionSort _ l₂).symm))
    (List.sorted_insertionSort _ l₁) (List.sorted_insertionSort _ l₂)

/-- Claim C3 amended: once at least 3 samples were collected, `median()`
returns the element at index `count / 2` (integer division; the
upper-middle element for even counts, not the lower-middle) of the
sorted copy of exactly the most recent `min(count, N)` inserted samples,
the oldest being evicted by circular overwrite once capacity is
reached. -/
theorem median_window (n : ℕ) (xs : List ℤ) (h3 : 3 ≤ min xs.length n) :
    (addAll (RingBuffer.mkInit n) xs).median
      = (List.insertionSort (· ≤ ·) (lastWindow n xs)).getD (min xs.length n / 2) 0 := by
  have hn : 0 < n := by omega
  rw [addAll_eq n hn xs]
  show (if min xs.length n = 0 then 0
    else (List.insertionSort (· ≤ ·) ((bufSpec n xs).take (min xs.length n))).getD
      (min xs.length n / 2) 0) = _
  rw [if_neg (by omega), insertionSort_congr_perm (bufSpec_take_perm n hn xs)]

/-- Witness for `median_window`: the first three samples `5, 7, 6` give
median `6`, the middle of the sorted window. -/
theorem median_window_witness :
    3 ≤ min ([5, 7, 6] : List ℤ).length 15 ∧
      (addAll (RingBuffer.mkInit 15) [5, 7, 6]).median
        = (List.insertionSort (· ≤ ·) (lastWindow 15 [5, 7, 6])).getD
            (min ([5, 7, 6] : List ℤ).length 15 / 2) 0 :=
  ⟨by decide, median_window 15 [5, 7, 6] (by decide)⟩

/-- Claim C3 counterexample: after the four samples `1, 2, 3, 4` the
code's median is `3` - the element at index `count / 2 = 2` of the
sorted window, its upper-middle - whereas the lower-middle element of
that window is `2`; so "lower-middle" misdescribes `median()` for even
counts. -/
theorem median_not_lower_middle :
    (addAll (RingBuffer.mkInit 15) [1, 2, 3, 4]).median = 3 ∧
    lowerMiddle 15 [1, 2, 3, 4] = 2 ∧
    (addAll (RingBuffer.mkInit 15) [1, 2, 3, 4]).median ≠ lowerMiddle 15 [1, 2, 3, 4] := by
  refine ⟨?_, ?_, ?_⟩ <;> decide

/-- Folding a concatenation of sample sequences. -/
lemma addAll_append (rb : RingBuffer) (xs ys : List ℤ) :
    addAll rb (xs ++ ys) = addAll (addAll rb xs) ys := by
  unfold addAll
  exact List.foldl_append _ _ _ _

/-- Adding a sample never decreases the fill count. -/
lemma count_le_add (rb : RingBuffer) (v : ℤ) : rb.count ≤ (rb.add v).count := by
  show rb.count ≤ if rb.count < rb.N then rb.count + 1 else rb.count
  split <;> omega

/-- A cycle with fewer than 3 collected samples reports the converted
instantaneous raw sample and leaves the accumulator and flag alone. -/
lemma pipeCycle_raw (cal : CalState) (p : PipeState) (raw : ℤ)
    (h : ¬ 3 ≤ (p.rb.add raw).count) :
    pipeCycle cal p raw = (⟨p.rb.add raw, p.first, p.iir⟩, rawToGrams cal raw) := by
  unfold pipeCycle
  rw [if_neg h]

/-- The first cycle with 3 samples seeds the accumulator exactly. -/
lemma pipeCycle_seed (cal : CalState) (p : PipeState) (raw : ℤ)
    (h : 3 ≤ (p.rb.add raw).count) (hf : p.first = true) :
    pipeCycle cal p raw
      = (⟨p.rb.add raw, false, rawToGrams cal (p.rb.add raw).median⟩,
         rawToGrams cal (p.rb.add raw).median) := by
  unfold pipeCycle
  rw [if_pos h, hf]
  simp

/-- Every later cycle blends the previous accumulator with the new
median in grams. -/
lemma pipeCycle_blend (cal : CalState) (p : PipeState) (raw : ℤ)
    (h : 3 ≤ (p.rb.add raw).count) (hf : p.first = false) :
    pipeCycle cal p raw
      = (⟨p.rb.add raw, false,
          (1 - IIR_ALPHA) * p.iir + IIR_ALPHA * rawToGrams cal (p.rb.add raw).median⟩,
         (1 - IIR_ALPHA) * p.iir + IIR_ALPHA * rawToGrams cal (p.rb.add raw).median) := by
  unfold pipeCycle
  rw [if_pos h, hf]
  simp

/-- Once the seeding flag is spent and the history holds 3 samples, the
pipeline is the pure blend recursion. -/
lemma pipeRun_steady (cal : CalState) (ys : List ℤ) : ∀ p : PipeState,
    p.first = false → 3 ≤ p.rb.count →
    pipeRun cal p ys = blendRun cal p.rb p.iir ys := by
  induction ys with
  | nil => intro p _ _; rfl
  | cons y t ih =>
    intro p h1 h2
    have hc : 3 ≤ (p.rb.add y).count := le_trans h2 (count_le_add p.rb y)
    have hcyc := pipeCycle_blend cal p y hc h1
    simp only [pipeRun, blendRun, hcyc]
    exact congrArg _ (ih ⟨p.rb.add y, false, _⟩ rfl hc)

/-- Each steady-state output is the blend of the previous value (the
head standing in for the value before the run) with the converted
median over all samples inserted so far. -/
lemma blendRun_getD (cal : CalState) (ys : List ℤ) : ∀ (rb : RingBuffer) (v : ℚ) (j : ℕ),
    j < ys.length →
    (blendRun cal rb v ys).getD j 0
      = (1 - IIR_ALPHA) * ((v :: blendRun cal rb v ys).getD j 0)
        + IIR_ALPHA * rawToGrams cal (addAll rb (ys.take (j + 1))).median := by
  induction ys with
  | nil =>
    intro rb v j hj
    simp at hj
  | cons y t ih =>
    intro rb v j hj
    cases j with
    | zero =>
      simp only [blendRun, List.getD_cons_zero]
      rfl
    | succ j =>
      have hj' : j < t.length := by simpa using hj
      simp only [blendRun, List.getD_cons_succ]
      rw [ih (rb.add y) _ j hj']
      rfl

/-- Unrolling the first three cycles from boot: two raw cycles, then
the seeded cycle, then pure blending. -/
lemma pipeRun_start (cal : CalState) (r0 r1 r2 : ℤ) (rest : List ℤ) :
    pipeRun cal initPipe (r0 :: r1 :: r2 :: rest)
      = rawToGrams cal r0 :: rawToGrams cal r1
        :: rawToGrams cal (addAll (RingBuffer.mkInit 15) [r0, r1, r2]).median
        :: blendRun cal (addAll (RingBuffer.mkInit 15) [r0, r1, r2])
             (rawToGrams cal (addAll (RingBuffer.mkInit 15) [r0, r1, r2]).median) rest := by
  have c1 : (initPipe.rb.add r0).count = 1 := rfl
  have c2 : (((RingBuffer.mkInit 15).add r0).add r1).count = 2 := rfl
  have c3 : ((((RingBuffer.mkInit 15).add r0).add r1).add r2).count = 3 := rfl
  have h1 := pipeCycle_raw cal initPipe r0 (by rw [c1]; omega)
  have h2 := pipeCycle_raw cal ⟨(RingBuffer.mkInit 15).add r0, true, 0⟩ r1
    (by show ¬ 3 ≤ (((RingBuffer.mkInit 15).add r0).add r1).count; rw [c2]; omega)
  have h3 := pipeCycle_seed cal ⟨((RingBuffer.mkInit 15).add r0).add r1, true, 0⟩ r2
    (by show 3 ≤ ((((RingBuffer.mkInit 15).add r0).add r1).add r2).count; rw [c3]) rfl
  have hAll : addAll (RingBuffer.mkInit 15) [r0, r1, r2]
      = (((RingBuffer.mkInit 15).add r0).add r1).add r2 := rfl
  have hsteady := pipeRun_steady cal rest
    ⟨(((RingBuffer.mkInit 15).add r0).add r1).add r2, false,
      rawToGrams cal ((((RingBuffer.mkInit 15).add r0).add r1).add r2).median⟩
    rfl (by show 3 ≤ ((((RingBuffer.mkInit 15).add r0).add r1).add r2).count; rw [c3])
  rw [hAll]
  simp only [pipeRun, h1, h2, h3]
  exact congrArg _ (congrArg _ (congrArg _ hsteady))

/-- Claim C6: the reported weight of cycle `k` (0-based) is the
conversion of the instantaneous raw sample while the history holds
fewer than 3 samples (cycles 0 and 1); on the first cycle with at least
3 samples (cycle 2) it is exactly the converted median seeded into the
accumulator with no blending against zero; and on every later cycle it
is `(1 - α)·previous + α·toGrams(median)` with `α = IIR_ALPHA = 1/5`,
the median being taken over the samples inserted so far. -/
theorem pipeline_weight (cal : CalState) (raws : List ℤ) (k : ℕ) (hk : k < raws.length) :
    (k < 2 → (pipeRun cal initPipe raws).getD k 0 = rawToGrams cal (raws.getD k 0)) ∧
    (k = 2 → (pipeRun cal initPipe raws).getD k 0
        = rawToGrams cal (addAll (RingBuffer.mkInit 15) (raws.take 3)).median) ∧
    (3 ≤ k → (pipeRun cal initPipe raws).getD k 0
        = (1 - IIR_ALPHA) * (pipeRun cal initPipe raws).getD (k - 1) 0
          + IIR_ALPHA * rawToGrams cal
              (addAll (RingBuffer.mkInit 15) (raws.take (k + 1))).median) := by
  rcases raws with _ | ⟨r0, raws1⟩
  · simp at hk
  rcases raws1 with _ | ⟨r1, raws2⟩
  · have hk0 : k = 0 := by simp at hk; omega
    subst hk0
    refine ⟨fun _ => ?_, fun h => absurd h (by omega), fun h => absurd h (by omega)⟩
    have h1 := pipeCycle_raw cal initPipe r0
      (by rw [show (initPipe.rb.add r0).count = 1 from rfl]; omega)
    simp [pipeRun, h1]
  rcases raws2 with _ | ⟨r2, rest⟩
  · have hk1 : k = 0 ∨ k = 1 := by simp at hk; omega
    have h1 := pipeCycle_raw cal initPipe r0
      (by rw [show (initPipe.rb.add r0).count = 1 from rfl]; omega)
    have h2 := pipeCycle_raw cal ⟨initPipe.rb.add r0, initPipe.first, initPipe.iir⟩ r1
      (by rw [show ((PipeState.mk (initPipe.rb.add r0) initPipe.first
          initPipe.iir).rb.add r1).count = 2 from rfl]; omega)
    refine ⟨fun _ => ?_, fun h => absurd h (by omega), fun h => absurd h (by omega)⟩
    rcases hk1 with rfl | rfl
    · simp [pipeRun, h1, h2]
    · simp [pipeRun, h1, h2]
  · rw [pipeRun_start]
    refine ⟨?_, ?_, ?_⟩
    · intro hk2
      rcases (by omega : k = 0 ∨ k = 1) with rfl | rfl <;> rfl
    · intro hk2
      subst hk2
      rfl
    · intro hk3
      obtain ⟨j, rfl⟩ : ∃ j, k = j + 3 := ⟨k - 3, by omega⟩
      have hj : j < rest.length := by simp at hk; omega
      have hb := blendRun_getD cal rest (addAll (RingBuffer.mkInit 15) [r0, r1, r2])
        (rawToGrams cal (addAll (RingBuffer.mkInit 15) [r0, r1, r2]).median) j hj
      rw [show j + 3 - 1 = j + 2 from by omega]
      simp only [List.getD_cons_succ]
      rw [hb]
      have hw : (r0 :: r1 :: r2 :: rest).take (j + 3 + 1) = [r0, r1, r2] ++ rest.take (j + 1) := by
        simp [List.take_succ_cons]
      rw [hw, addAll_append]

/-- Witness for `pipeline_weight` on the run `[1, 2, 3, 4]` at cycle 3:
the fourth output blends the third with the new median in grams. -/
theorem pipeline_weight_witness :
    (pipeRun initCal initPipe [1, 2, 3, 4]).getD 3 0
      = (1 - IIR_ALPHA) * (pipeRun initCal initPipe [1, 2, 3, 4]).getD (3 - 1) 0
        + IIR_ALPHA * rawToGrams initCal
            (addAll (RingBuffer.mkInit 15) ([1, 2, 3, 4].take (3 + 1))).median :=
  (pipeline_weight initCal [1, 2, 3, 4] 3 (by norm_num)).2.2 (by norm_num)
